import Mathlib

/-!
Verification of the hierarchical memory tiering subsystem
(`MemoryEntry` / `MemoryLayer` / `HierarchicalMemory`).

The embedding mirrors the Python source. Mutable object state becomes
explicit state passing: each method takes the receiver and returns the
updated receiver. Python floats are represented by exact rationals in the
main model; every numeric constant appearing in the code (0.8, 0.5) and in
the checked properties (0.81, 0.9, 0.2, ...) is exactly representable, and
the comparisons involved incur no rounding, so the rational model agrees
with IEEE double evaluation on all finite values. A second model at the end
of the definitions makes the IEEE special values (NaN, infinities)
explicit, for the one property that is about non-finite importance.

Fallible code returns Except: any Python method can raise, so each method
whose body could reach a raising operation (list.pop(0) on an empty list
raises IndexError) is given an Except result type. The error type also
enumerates the two error kinds named by the design document, so that the
statement "this call raises InvalidConfigError" is expressible; the source
itself contains no raise statement and no validation.

Python list.sort(key=f) is a stable ascending sort. Its functional
counterpart here is List.insertionSort with the reflexive total relation
"key of a is at most key of b": that sort is ascending and stable, and a
stable ascending sort of a list under a total preorder is unique, so the
two agree elementwise.
-/

/-- Opaque content payload (`content: Any` in the source); only its identity
matters to the algorithms, so it is modelled by a countable tag type. -/
abbrev Content := Nat

/-- The exceptions relevant to this development. `indexError` is what
`list.pop(0)` raises on an empty list. The two named error kinds of the
design document are included so that claims about them can be stated;
the source never raises them. -/
inductive PyError where
  | indexError
  | invalidConfigError
  | invalidInputError
deriving DecidableEq

/-- `MemoryEntry`: content, importance, access count. The source also stores
a wall-clock creation timestamp (`datetime.now()`); no operation and no
checked property reads it, and real time has no shallow embedding, so it is
omitted from the state. -/
structure MemoryEntry where
  content : Content
  importance : ℚ
  access_count : Nat
deriving DecidableEq

/-- `MemoryEntry.__init__(content, importance)`: stores both fields and
initializes the access count to 0. No validation is performed. -/
def MemoryEntry.init (content : Content) (importance : ℚ) : MemoryEntry :=
  { content := content, importance := importance, access_count := 0 }

/-- `MemoryLayer`: a capacity (a Python int, hence `Int`) and a list of
resident entries. -/
structure MemoryLayer where
  capacity : Int
  memories : List MemoryEntry
deriving DecidableEq

/-- `MemoryLayer.__init__(capacity)`: stores the capacity and starts with an
empty list. The source performs no validation of the capacity; the Except
result records that a Python constructor can raise, and this one never
does. -/
def MemoryLayer.init (capacity : Int) : Except PyError MemoryLayer :=
  .ok { capacity := capacity, memories := [] }

/-- The sort key used by `_evict`: `x.importance * x.access_count`. -/
def score (e : MemoryEntry) : ℚ := e.importance * e.access_count

/-- The total preorder on entries induced by the sort key. -/
def scoreLE (a b : MemoryEntry) : Prop := score a ≤ score b

instance : DecidableRel scoreLE :=
  fun a b => inferInstanceAs (Decidable (score a ≤ score b))

instance : IsTotal MemoryEntry scoreLE :=
  ⟨fun a b => le_total (score a) (score b)⟩

instance : IsTrans MemoryEntry scoreLE :=
  ⟨fun _ _ _ hab hbc => le_trans hab hbc⟩

/-- Python `l.pop(0)`: removes and returns the first element; raises
IndexError on an empty list. -/
def listPop0 {α : Type} (l : List α) : Except PyError (α × List α) :=
  match l with
  | [] => .error .indexError
  | x :: xs => .ok (x, xs)

/-- `MemoryLayer._evict(self)`: sorts the resident list in place by score
(stable ascending), then pops index 0. The method body has no return
statement, so its Python return value is `None`; that value is recorded as
the second component, of type `Option MemoryEntry` and always `none`. -/
def MemoryLayer.evict (layer : MemoryLayer) :
    Except PyError (MemoryLayer × Option MemoryEntry) := do
  let sorted := List.insertionSort scoreLE layer.memories
  let (_, rest) ← listPop0 sorted
  return ({ layer with memories := rest }, none)

/-- `MemoryLayer.add(self, entry)`: if `len(self.memories) >= self.capacity`
then `self._evict()` once, then append the entry. -/
def MemoryLayer.add (layer : MemoryLayer) (entry : MemoryEntry) :
    Except PyError MemoryLayer :=
  if (layer.memories.length : Int) ≥ layer.capacity then do
    let (layer2, _) ← layer.evict
    return { layer2 with memories := layer2.memories ++ [entry] }
  else
    .ok { layer with memories := layer.memories ++ [entry] }

/-- `HierarchicalMemory`: the three fixed layers. -/
structure HierarchicalMemory where
  working_memory : MemoryLayer
  short_term : MemoryLayer
  long_term : MemoryLayer
deriving DecidableEq

/-- `HierarchicalMemory.__init__(self)`: three layers with capacities
5, 50, 1000. -/
def HierarchicalMemory.init : Except PyError HierarchicalMemory := do
  let w ← MemoryLayer.init 5
  let s ← MemoryLayer.init 50
  let l ← MemoryLayer.init 1000
  return { working_memory := w, short_term := s, long_term := l }

/-- `HierarchicalMemory.store(self, content, importance)`: builds the entry,
then routes it by strict threshold comparisons. -/
def HierarchicalMemory.store (mem : HierarchicalMemory) (content : Content)
    (importance : ℚ) : Except PyError HierarchicalMemory :=
  let entry := MemoryEntry.init content importance
  if importance > 8/10 then do
    let w ← mem.working_memory.add entry
    return { mem with working_memory := w }
  else if importance > 1/2 then do
    let s ← mem.short_term.add entry
    return { mem with short_term := s }
  else do
    let l ← mem.long_term.add entry
    return { mem with long_term := l }

/-- A finite sequence of `add` calls on one layer. -/
def MemoryLayer.addSeq (layer : MemoryLayer) (entries : List MemoryEntry) :
    Except PyError MemoryLayer :=
  entries.foldlM MemoryLayer.add layer

/-- A finite sequence of `store` calls. -/
def HierarchicalMemory.storeSeq (mem : HierarchicalMemory)
    (ops : List (Content × ℚ)) : Except PyError HierarchicalMemory :=
  ops.foldlM (fun m op => m.store op.1 op.2) mem

/-- The state produced by `HierarchicalMemory.__init__`. -/
def freshHM : HierarchicalMemory :=
  { working_memory := { capacity := 5, memories := [] }
  , short_term := { capacity := 50, memories := [] }
  , long_term := { capacity := 1000, memories := [] } }

/-!
The model with explicit IEEE special values, for the property about
non-finite importance. It is the same source code; only the number type
changes, so that NaN and the infinities exist as values and the Python
comparison semantics on them (every comparison involving NaN is false) is
explicit. For non-finite sort keys the Python sort order is
comparison-dependent; the embedding fixes the stable left-to-right
insertion realization, and no theorem below depends on that case.
-/

/-- A Python float value: NaN, one of the infinities, or a finite value
(represented exactly by a rational, adequate for every constant occurring
in the code). -/
inductive PyFloat where
  | nan
  | posInf
  | negInf
  | finite (q : ℚ)
deriving DecidableEq

/-- Python `x > y` on floats. Every comparison involving NaN is false;
`inf > inf` is false; `inf` exceeds everything else; `-inf` exceeds
nothing. -/
def PyFloat.gt : PyFloat → PyFloat → Bool
  | .nan, _ => false
  | _, .nan => false
  | .posInf, .posInf => false
  | .posInf, _ => true
  | .negInf, _ => false
  | .finite _, .posInf => false
  | .finite _, .negInf => true
  | .finite a, .finite b => decide (b < a)

/-- Python `x < y` on floats. -/
def PyFloat.lt (a b : PyFloat) : Bool := PyFloat.gt b a

/-- Python multiplication of a float by a nonnegative int, as used by the
sort key: `nan * n = nan`, `inf * 0 = nan`, `inf * n = inf` for positive
`n`, and exact multiplication on finite values. -/
def PyFloat.mulNat : PyFloat → Nat → PyFloat
  | .nan, _ => .nan
  | .posInf, 0 => .nan
  | .posInf, _ + 1 => .posInf
  | .negInf, 0 => .nan
  | .negInf, _ + 1 => .negInf
  | .finite q, n => .finite (q * n)

/-- `MemoryEntry` with an IEEE-special-value-aware importance. -/
structure MemoryEntryF where
  content : Content
  importance : PyFloat
  access_count : Nat
deriving DecidableEq

/-- The `_evict` sort key in the float model. -/
def scoreF (e : MemoryEntryF) : PyFloat := e.importance.mulNat e.access_count

/-- The sort relation in the float model: `a` precedes `b` unless the key of
`b` compares strictly below the key of `a`. On finite keys this is the same
total preorder as in the rational model. -/
def scoreLEF (a b : MemoryEntryF) : Prop :=
  PyFloat.lt (scoreF b) (scoreF a) = false

instance : DecidableRel scoreLEF :=
  fun a b => inferInstanceAs (Decidable (PyFloat.lt (scoreF b) (scoreF a) = false))

/-- `MemoryLayer` in the float model. -/
structure MemoryLayerF where
  capacity : Int
  memories : List MemoryEntryF
deriving DecidableEq

/-- `MemoryLayer._evict` in the float model. -/
def MemoryLayerF.evict (layer : MemoryLayerF) :
    Except PyError (MemoryLayerF × Option MemoryEntryF) := do
  let sorted := List.insertionSort scoreLEF layer.memories
  let (_, rest) ← listPop0 sorted
  return ({ layer with memories := rest }, none)

/-- `MemoryLayer.add` in the float model. -/
def MemoryLayerF.add (layer : MemoryLayerF) (entry : MemoryEntryF) :
    Except PyError MemoryLayerF :=
  if (layer.memories.length : Int) ≥ layer.capacity then do
    let (layer2, _) ← layer.evict
    return { layer2 with memories := layer2.memories ++ [entry] }
  else
    .ok { layer with memories := layer.memories ++ [entry] }

/-- `HierarchicalMemory` in the float model. -/
structure HierarchicalMemoryF where
  working_memory : MemoryLayerF
  short_term : MemoryLayerF
  long_term : MemoryLayerF
deriving DecidableEq

/-- `HierarchicalMemory.store` in the float model: the two comparisons are
the Python `>` on floats against the finite thresholds 0.8 and 0.5. No
validation of the importance is performed anywhere in the source. -/
def HierarchicalMemoryF.store (mem : HierarchicalMemoryF) (content : Content)
    (importance : PyFloat) : Except PyError HierarchicalMemoryF :=
  let entry : MemoryEntryF :=
    { content := content, importance := importance, access_count := 0 }
  if importance.gt (.finite (8/10)) then do
    let w ← mem.working_memory.add entry
    return { mem with working_memory := w }
  else if importance.gt (.finite (1/2)) then do
    let s ← mem.short_term.add entry
    return { mem with short_term := s }
  else do
    let l ← mem.long_term.add entry
    return { mem with long_term := l }

/-- The state produced by `HierarchicalMemory.__init__` in the float
model. -/
def freshHMF : HierarchicalMemoryF :=
  { working_memory := { capacity := 5, memories := [] }
  , short_term := { capacity := 50, memories := [] }
  , long_term := { capacity := 1000, memories := [] } }

/-!  Helper lemmas. -/

theorem init_eq_fresh : HierarchicalMemory.init = .ok freshHM := rfl

theorem sort_ne_nil (l : List MemoryEntry) (h : l ≠ []) :
    List.insertionSort scoreLE l ≠ [] := by
  intro hs
  have hp := List.perm_insertionSort scoreLE l
  rw [hs] at hp
  exact h (List.nil_perm.mp hp)

theorem evict_eq_of_sort (layer : MemoryLayer) (x : MemoryEntry)
    (rest : List MemoryEntry)
    (h : List.insertionSort scoreLE layer.memories = x :: rest) :
    layer.evict = .ok ({ layer with memories := rest }, none) := by
  simp [MemoryLayer.evict, h, listPop0, Bind.bind, Except.bind, Pure.pure,
    Except.pure]

/-- The leftmost entry of minimal score, the entry a stable ascending sort
brings to the front. -/
def firstMin : List MemoryEntry → Option MemoryEntry
  | [] => none
  | a :: l =>
    match firstMin l with
    | none => some a
    | some m => if score a ≤ score m then some a else some m

theorem firstMin_mem : ∀ (l : List MemoryEntry) (m : MemoryEntry),
    firstMin l = some m → m ∈ l := by
  intro l
  induction l with
  | nil => intro m h; simp [firstMin] at h
  | cons a t ih =>
    intro m h
    cases ht : firstMin t with
    | none =>
      simp only [firstMin, ht] at h
      cases h
      exact List.mem_cons_self a t
    | some k =>
      simp only [firstMin, ht] at h
      by_cases hle : score a ≤ score k
      · rw [if_pos hle] at h
        injection h with h2
        subst h2
        exact List.mem_cons_self _ t
      · rw [if_neg hle] at h
        injection h with h2
        subst h2
        exact List.mem_cons_of_mem a (ih _ ht)

theorem sort_headq (l : List MemoryEntry) :
    (List.insertionSort scoreLE l).head? = firstMin l := by
  induction l with
  | nil => rfl
  | cons a t ih =>
    simp only [List.insertionSort]
    cases hs : List.insertionSort scoreLE t with
    | nil =>
      have hfm : firstMin t = none := by rw [← ih, hs]; rfl
      simp [List.orderedInsert, firstMin, hfm]
    | cons b s =>
      have hfm : firstMin t = some b := by rw [← ih, hs]; rfl
      simp only [List.orderedInsert, firstMin, hfm]
      by_cases h : score a ≤ score b
      · have h2 : scoreLE a b := h
        rw [if_pos h2, if_pos h]
        rfl
      · have h2 : ¬ scoreLE a b := h
        rw [if_neg h2, if_neg h]
        rfl

theorem firstMin_append (l₁ : List MemoryEntry) (x : MemoryEntry)
    (l₂ : List MemoryEntry)
    (hmin : ∀ e ∈ l₂, score x ≤ score e)
    (hstrict : ∀ e ∈ l₁, score x < score e) :
    firstMin (l₁ ++ x :: l₂) = some x := by
  revert hstrict
  induction l₁ with
  | nil =>
    intro _
    simp only [List.nil_append]
    cases h2 : firstMin l₂ with
    | none => simp only [firstMin, h2]
    | some m =>
      simp only [firstMin, h2]
      rw [if_pos (hmin m (firstMin_mem l₂ m h2))]
  | cons a t ih =>
    intro hstrict
    have ih2 := ih (fun e he => hstrict e (List.mem_cons_of_mem a he))
    simp only [List.cons_append, firstMin, List.append_eq, ih2]
    exact if_neg (not_le.mpr (hstrict a (List.mem_cons_self a t)))

theorem sort_head_min (l : List MemoryEntry) (x : MemoryEntry)
    (rest : List MemoryEntry)
    (h : List.insertionSort scoreLE l = x :: rest) :
    x ∈ l ∧ (∀ e ∈ l, score x ≤ score e) ∧ (x :: rest).Perm l := by
  have hp : (x :: rest).Perm l := h ▸ List.perm_insertionSort scoreLE l
  refine ⟨hp.subset (List.mem_cons_self x rest), ?_, hp⟩
  intro e he
  have he2 : e ∈ x :: rest := hp.symm.subset he
  have hsorted := List.sorted_insertionSort scoreLE l
  rw [h] at hsorted
  rcases List.mem_cons.mp he2 with rfl | hr
  · exact le_refl _
  · exact List.rel_of_sorted_cons hsorted e hr

theorem score_zero (e : MemoryEntry) (h : e.access_count = 0) : score e = 0 := by
  simp [score, h]

theorem sort_eq_self_zero (l : List MemoryEntry)
    (h : ∀ e ∈ l, e.access_count = 0) :
    List.insertionSort scoreLE l = l := by
  apply List.Sorted.insertionSort_eq
  apply List.pairwise_of_forall_mem_list
  intro a ha b hb
  show score a ≤ score b
  rw [score_zero a (h a ha), score_zero b (h b hb)]

theorem add_ok (layer : MemoryLayer) (entry : MemoryEntry)
    (hcap : 1 ≤ layer.capacity) :
    ∃ layer2, layer.add entry = .ok layer2 ∧
      layer2.capacity = layer.capacity ∧
      (∀ e ∈ layer2.memories, e ∈ layer.memories ∨ e = entry) ∧
      ((layer.memories.length : Int) ≤ layer.capacity →
        (layer2.memories.length : Int) ≤ layer.capacity) := by
  by_cases hfull : (layer.memories.length : Int) ≥ layer.capacity
  · have hne : layer.memories ≠ [] := by
      intro h0
      rw [h0] at hfull
      simp at hfull
      omega
    obtain ⟨x, rest, hs⟩ : ∃ x rest,
        List.insertionSort scoreLE layer.memories = x :: rest :=
      List.exists_cons_of_ne_nil (sort_ne_nil layer.memories hne)
    have hev := evict_eq_of_sort layer x rest hs
    refine ⟨{ layer with memories := rest ++ [entry] }, ?_, rfl, ?_, ?_⟩
    · simp [MemoryLayer.add, if_pos hfull, hev, Bind.bind, Except.bind,
        Pure.pure, Except.pure]
    · intro e he
      rcases List.mem_append.mp he with h1 | h1
      · left
        have h2 : e ∈ x :: rest := List.mem_cons_of_mem x h1
        rw [← hs] at h2
        exact (List.perm_insertionSort scoreLE layer.memories).subset h2
      · right
        simpa using h1
    · intro hlen
      have hlensort := (List.perm_insertionSort scoreLE layer.memories).length_eq
      rw [hs] at hlensort
      simp only [List.length_cons] at hlensort
      simp only [List.length_append, List.length_singleton]
      omega
  · refine ⟨{ layer with memories := layer.memories ++ [entry] }, ?_, rfl, ?_, ?_⟩
    · simp [MemoryLayer.add, if_neg hfull]
    · intro e he
      rcases List.mem_append.mp he with h1 | h1
      · left; exact h1
      · right; simpa using h1
    · intro _
      have hlt : (layer.memories.length : Int) < layer.capacity := not_le.mp hfull
      simp only [List.length_append, List.length_singleton]
      omega

theorem store_gt (mem : HierarchicalMemory) (c : Content) (imp : ℚ)
    (h : 8/10 < imp) (w : MemoryLayer)
    (hw : mem.working_memory.add (MemoryEntry.init c imp) = .ok w) :
    mem.store c imp = .ok { mem with working_memory := w } := by
  simp only [HierarchicalMemory.store, gt_iff_lt]
  rw [if_pos h]
  simp only [hw, Bind.bind, Except.bind, Pure.pure, Except.pure]

theorem store_mid (mem : HierarchicalMemory) (c : Content) (imp : ℚ)
    (h1 : ¬ 8/10 < imp) (h2 : 1/2 < imp) (s : MemoryLayer)
    (hs : mem.short_term.add (MemoryEntry.init c imp) = .ok s) :
    mem.store c imp = .ok { mem with short_term := s } := by
  simp only [HierarchicalMemory.store, gt_iff_lt]
  rw [if_neg h1, if_pos h2]
  simp only [hs, Bind.bind, Except.bind, Pure.pure, Except.pure]

theorem store_low (mem : HierarchicalMemory) (c : Content) (imp : ℚ)
    (h1 : ¬ 8/10 < imp) (h2 : ¬ 1/2 < imp) (t : MemoryLayer)
    (ht : mem.long_term.add (MemoryEntry.init c imp) = .ok t) :
    mem.store c imp = .ok { mem with long_term := t } := by
  simp only [HierarchicalMemory.store, gt_iff_lt]
  rw [if_neg h1, if_neg h2]
  simp only [ht, Bind.bind, Except.bind, Pure.pure, Except.pure]

theorem addSeq_invariant :
    ∀ (entries : List MemoryEntry) (st : MemoryLayer),
      1 ≤ st.capacity → (st.memories.length : Int) ≤ st.capacity →
      ∃ out, MemoryLayer.addSeq st entries = .ok out ∧
        out.capacity = st.capacity ∧
        (out.memories.length : Int) ≤ st.capacity := by
  intro entries
  induction entries with
  | nil =>
    intro st _ h2
    exact ⟨st, rfl, rfl, h2⟩
  | cons e es ih =>
    intro st h1 h2
    obtain ⟨st2, hadd, hcap2, _, hlen⟩ := add_ok st e h1
    obtain ⟨out, hseq, hocap, holen⟩ :=
      ih st2 (by rw [hcap2]; exact h1) (by rw [hcap2]; exact hlen h2)
    refine ⟨out, ?_, by rw [hocap, hcap2], by rw [← hcap2]; exact holen⟩
    simp only [MemoryLayer.addSeq, List.foldlM_cons, hadd, Bind.bind, Except.bind]
    simpa [MemoryLayer.addSeq] using hseq

theorem addSeq_suffix :
    ∀ (entries : List MemoryEntry) (st : MemoryLayer) (hist : List MemoryEntry),
      1 ≤ st.capacity →
      (∀ e ∈ hist, e.access_count = 0) →
      (∀ e ∈ entries, e.access_count = 0) →
      st.memories.IsSuffix hist →
      ∃ out, MemoryLayer.addSeq st entries = .ok out ∧
        out.capacity = st.capacity ∧
        out.memories.IsSuffix (hist ++ entries) := by
  intro entries
  induction entries with
  | nil =>
    intro st hist _ _ _ hsuf
    exact ⟨st, rfl, rfl, by simpa using hsuf⟩
  | cons e es ih =>
    intro st hist h1 hhist hents hsuf
    have hmem0 : ∀ x ∈ st.memories, x.access_count = 0 :=
      fun x hx => hhist x (hsuf.subset hx)
    have step : ∃ st2, st.add e = .ok st2 ∧ st2.capacity = st.capacity ∧
        st2.memories.IsSuffix (hist ++ [e]) := by
      by_cases hfull : (st.memories.length : Int) ≥ st.capacity
      · have hne : st.memories ≠ [] := by
          intro h0
          rw [h0] at hfull
          simp at hfull
          omega
        obtain ⟨m0, mrest, hm⟩ := List.exists_cons_of_ne_nil hne
        have hsort : List.insertionSort scoreLE st.memories = m0 :: mrest := by
          rw [sort_eq_self_zero st.memories hmem0, hm]
        have hev := evict_eq_of_sort st m0 mrest hsort
        refine ⟨{ st with memories := mrest ++ [e] }, ?_, rfl, ?_⟩
        · simp [MemoryLayer.add, if_pos hfull, hev, Bind.bind, Except.bind,
            Pure.pure, Except.pure]
        · obtain ⟨p, hp⟩ := hsuf
          refine ⟨p ++ [m0], ?_⟩
          rw [hm] at hp
          rw [← hp]
          simp
      · refine ⟨{ st with memories := st.memories ++ [e] }, ?_, rfl, ?_⟩
        · simp [MemoryLayer.add, if_neg hfull]
        · obtain ⟨p, hp⟩ := hsuf
          refine ⟨p, ?_⟩
          rw [← hp, List.append_assoc]
    obtain ⟨st2, hadd, hcap2, hsuf2⟩ := step
    have hhist2 : ∀ x ∈ hist ++ [e], x.access_count = 0 := by
      intro x hx
      rcases List.mem_append.mp hx with h | h
      · exact hhist x h
      · simp at h
        subst h
        exact hents _ (List.mem_cons_self _ es)
    obtain ⟨out, hseq, hocap, hosuf⟩ :=
      ih st2 (hist ++ [e]) (by rw [hcap2]; exact h1) hhist2
        (fun x hx => hents x (List.mem_cons_of_mem e hx)) hsuf2
    refine ⟨out, ?_, by rw [hocap, hcap2], ?_⟩
    · simp only [MemoryLayer.addSeq, List.foldlM_cons, hadd, Bind.bind, Except.bind]
      simpa [MemoryLayer.addSeq] using hseq
    · simpa [List.append_assoc] using hosuf

theorem storeSeq_zero :
    ∀ (ops : List (Content × ℚ)) (mem : HierarchicalMemory),
      1 ≤ mem.working_memory.capacity → 1 ≤ mem.short_term.capacity →
      1 ≤ mem.long_term.capacity →
      (∀ e ∈ mem.working_memory.memories, e.access_count = 0) →
      (∀ e ∈ mem.short_term.memories, e.access_count = 0) →
      (∀ e ∈ mem.long_term.memories, e.access_count = 0) →
      ∃ out, HierarchicalMemory.storeSeq mem ops = .ok out ∧
        (∀ e ∈ out.working_memory.memories, e.access_count = 0) ∧
        (∀ e ∈ out.short_term.memories, e.access_count = 0) ∧
        (∀ e ∈ out.long_term.memories, e.access_count = 0) := by
  intro ops
  induction ops with
  | nil =>
    intro mem _ _ _ z1 z2 z3
    exact ⟨mem, rfl, z1, z2, z3⟩
  | cons op ops ih =>
    intro mem h1 h2 h3 z1 z2 z3
    have hz : ∀ st : MemoryLayer, ∀ st2 : MemoryLayer,
        (∀ e ∈ st.memories, e.access_count = 0) →
        (∀ e ∈ st2.memories, e ∈ st.memories ∨ e = MemoryEntry.init op.1 op.2) →
        ∀ e ∈ st2.memories, e.access_count = 0 := by
      intro st st2 hst hsub e he
      rcases hsub e he with h | h
      · exact hst e h
      · rw [h]
        rfl
    have step : ∃ mem2, mem.store op.1 op.2 = .ok mem2 ∧
        1 ≤ mem2.working_memory.capacity ∧ 1 ≤ mem2.short_term.capacity ∧
        1 ≤ mem2.long_term.capacity ∧
        (∀ e ∈ mem2.working_memory.memories, e.access_count = 0) ∧
        (∀ e ∈ mem2.short_term.memories, e.access_count = 0) ∧
        (∀ e ∈ mem2.long_term.memories, e.access_count = 0) := by
      by_cases hgt : 8/10 < op.2
      · obtain ⟨w, hw, hwcap, hwmem, _⟩ :=
          add_ok mem.working_memory (MemoryEntry.init op.1 op.2) h1
        exact ⟨{ mem with working_memory := w },
          store_gt mem op.1 op.2 hgt w hw,
          by simpa [hwcap] using h1, h2, h3,
          hz mem.working_memory w z1 hwmem, z2, z3⟩
      · by_cases hmid : 1/2 < op.2
        · obtain ⟨s, hs, hscap, hsmem, _⟩ :=
            add_ok mem.short_term (MemoryEntry.init op.1 op.2) h2
          exact ⟨{ mem with short_term := s },
            store_mid mem op.1 op.2 hgt hmid s hs,
            h1, by simpa [hscap] using h2, h3,
            z1, hz mem.short_term s z2 hsmem, z3⟩
        · obtain ⟨t, ht, htcap, htmem, _⟩ :=
            add_ok mem.long_term (MemoryEntry.init op.1 op.2) h3
          exact ⟨{ mem with long_term := t },
            store_low mem op.1 op.2 hgt hmid t ht,
            h1, h2, by simpa [htcap] using h3,
            z1, z2, hz mem.long_term t z3 htmem⟩
    obtain ⟨mem2, hstore, g1, g2, g3, w1, w2, w3⟩ := step
    obtain ⟨out, hseq, o1, o2, o3⟩ := ih mem2 g1 g2 g3 w1 w2 w3
    refine ⟨out, ?_, o1, o2, o3⟩
    simp only [HierarchicalMemory.storeSeq, List.foldlM_cons, hstore,
      Bind.bind, Except.bind]
    simpa [HierarchicalMemory.storeSeq] using hseq

/-!  Claim theorems. -/

/-- Claim C1: for every MemoryLayer constructed with capacity at least 1,
after any finite sequence of add calls the layer size is at most its
capacity. -/
theorem claim1_size_le_capacity (cap : Int) (hcap : 1 ≤ cap)
    (entries : List MemoryEntry) :
    ∃ layer0 layer, MemoryLayer.init cap = .ok layer0 ∧
      MemoryLayer.addSeq layer0 entries = .ok layer ∧
      (layer.memories.length : Int) ≤ cap := by
  obtain ⟨out, hseq, _, hlen⟩ :=
    addSeq_invariant entries { capacity := cap, memories := [] } hcap
      (by simp; omega)
  exact ⟨{ capacity := cap, memories := [] }, out, rfl, hseq, hlen⟩

/-- Witness for C1 at capacity 1 and two adds. -/
theorem claim1_size_le_capacity_witness :
    ∃ layer0 layer, MemoryLayer.init 1 = .ok layer0 ∧
      MemoryLayer.addSeq layer0
        [MemoryEntry.init 0 0, MemoryEntry.init 1 0] = .ok layer ∧
      (layer.memories.length : Int) ≤ 1 :=
  claim1_size_le_capacity 1 (by norm_num)
    [MemoryEntry.init 0 0, MemoryEntry.init 1 0]

/-- Claim C3: eviction removes an entry of minimal score
importance * access_count; in the concrete example, a layer at capacity
holding A (importance 0.9, access 0, score 0) and B (importance 0.2,
access 5, score 1) evicts A and not B when a third entry is added. -/
theorem claim3_evict_minimal_score (layer : MemoryLayer)
    (hne : layer.memories ≠ []) :
    (∃ x rest, List.insertionSort scoreLE layer.memories = x :: rest ∧
       layer.evict = .ok ({ layer with memories := rest }, none) ∧
       x ∈ layer.memories ∧ (∀ e ∈ layer.memories, score x ≤ score e)) ∧
    MemoryLayer.add
        { capacity := 2,
          memories := [{ content := 0, importance := 9/10, access_count := 0 },
                       { content := 1, importance := 1/5, access_count := 5 }] }
        { content := 2, importance := 1/2, access_count := 0 } =
      .ok { capacity := 2,
            memories := [{ content := 1, importance := 1/5, access_count := 5 },
                         { content := 2, importance := 1/2, access_count := 0 }] } := by
  constructor
  · obtain ⟨x, rest, hs⟩ :=
      List.exists_cons_of_ne_nil (sort_ne_nil layer.memories hne)
    obtain ⟨hmem, hmin, _⟩ := sort_head_min layer.memories x rest hs
    exact ⟨x, rest, hs, evict_eq_of_sort layer x rest hs, hmem, hmin⟩
  · norm_num [MemoryLayer.add, MemoryLayer.evict, listPop0,
      List.insertionSort, List.orderedInsert, scoreLE, score,
      Bind.bind, Except.bind, Pure.pure, Except.pure]

/-- Witness for C3 at the concrete two-entry layer of the claim. -/
theorem claim3_evict_minimal_score_witness :
    (∃ x rest,
       List.insertionSort scoreLE
         [{ content := 0, importance := 9/10, access_count := 0 },
          { content := 1, importance := 1/5, access_count := 5 }] = x :: rest ∧
       MemoryLayer.evict
         { capacity := 2,
           memories := [{ content := 0, importance := 9/10, access_count := 0 },
                        { content := 1, importance := 1/5, access_count := 5 }] } =
         .ok ({ capacity := 2, memories := rest }, none) ∧
       x ∈ [({ content := 0, importance := 9/10, access_count := 0 } : MemoryEntry),
            { content := 1, importance := 1/5, access_count := 5 }] ∧
       (∀ e ∈ [({ content := 0, importance := 9/10, access_count := 0 } : MemoryEntry),
               { content := 1, importance := 1/5, access_count := 5 }],
          score x ≤ score e)) :=
  (claim3_evict_minimal_score
    { capacity := 2,
      memories := [{ content := 0, importance := 9/10, access_count := 0 },
                   { content := 1, importance := 1/5, access_count := 5 }] }
    (by simp)).1

/-- Claim C6 counterexample: constructing a MemoryLayer with capacity 0
succeeds and raises nothing; the source performs no capacity validation, so
the claimed InvalidConfigError is never raised. -/
theorem claim6_counterexample :
    MemoryLayer.init 0 = .ok { capacity := 0, memories := [] } ∧
    MemoryLayer.init 0 ≠ .error .invalidConfigError := by
  constructor
  · rfl
  · intro h
    cases h

/-- Claim C6 amended: construction succeeds for every capacity value,
including zero and negative ones, storing the given capacity with an empty
entry list; no validation is performed and no error is possible. -/
theorem claim6_amended (cap : Int) :
    MemoryLayer.init cap = .ok { capacity := cap, memories := [] } := rfl

/-- Claim C7 counterexample: on a concrete non-empty layer the eviction
method removes the minimal-score entry but its Python return value is None,
not the removed MemoryEntry. -/
theorem claim7_counterexample :
    MemoryLayer.evict
      { capacity := 2,
        memories := [{ content := 0, importance := 9/10, access_count := 0 },
                     { content := 1, importance := 1/5, access_count := 5 }] } =
      .ok ({ capacity := 2,
             memories := [{ content := 1, importance := 1/5, access_count := 5 }] },
           none) ∧
    (none : Option MemoryEntry) ≠
      some { content := 0, importance := 9/10, access_count := 0 } := by
  constructor
  · norm_num [MemoryLayer.evict, listPop0, List.insertionSort,
      List.orderedInsert, scoreLE, score, Bind.bind, Except.bind,
      Pure.pure, Except.pure]
  · intro h
    cases h

/-- Claim C7 amended: eviction on a non-empty layer removes the front entry
of the sorted list and returns None to its caller (the method has no return
statement), so the caller cannot audit the removed entry through the return
value. -/
theorem claim7_amended (layer : MemoryLayer) (hne : layer.memories ≠ []) :
    ∃ rest, layer.evict = .ok ({ layer with memories := rest }, none) := by
  obtain ⟨x, rest, hs⟩ :=
    List.exists_cons_of_ne_nil (sort_ne_nil layer.memories hne)
  exact ⟨rest, evict_eq_of_sort layer x rest hs⟩

/-- Witness for the amended C7 at a concrete one-entry layer. -/
theorem claim7_amended_witness :
    ∃ rest, MemoryLayer.evict
        { capacity := 1,
          memories := [{ content := 0, importance := 1, access_count := 0 }] } =
      .ok ({ capacity := 1, memories := rest }, none) :=
  claim7_amended
    { capacity := 1,
      memories := [{ content := 0, importance := 1, access_count := 0 }] }
    (by simp)

/-- Claim C2: store routes by strict threshold comparisons: importance above
0.8 goes to working memory, above 0.5 and at most 0.8 to short-term, at
most 0.5 to long-term; in particular 0.81 lands in working, 0.8 in
short-term, 0.5 in long-term. -/
theorem claim2_threshold_routing (mem : HierarchicalMemory) (c : Content)
    (imp : ℚ)
    (hw : 1 ≤ mem.working_memory.capacity)
    (hs : 1 ≤ mem.short_term.capacity)
    (hl : 1 ≤ mem.long_term.capacity) :
    ((8/10 : ℚ) < imp →
      ∃ w, mem.working_memory.add (MemoryEntry.init c imp) = .ok w ∧
        mem.store c imp = .ok { mem with working_memory := w }) ∧
    ((1/2 : ℚ) < imp → imp ≤ 8/10 →
      ∃ s, mem.short_term.add (MemoryEntry.init c imp) = .ok s ∧
        mem.store c imp = .ok { mem with short_term := s }) ∧
    (imp ≤ (1/2 : ℚ) →
      ∃ t, mem.long_term.add (MemoryEntry.init c imp) = .ok t ∧
        mem.store c imp = .ok { mem with long_term := t }) ∧
    freshHM.store 0 (81/100) =
      .ok { freshHM with working_memory :=
        { capacity := 5, memories := [MemoryEntry.init 0 (81/100)] } } ∧
    freshHM.store 0 (8/10) =
      .ok { freshHM with short_term :=
        { capacity := 50, memories := [MemoryEntry.init 0 (8/10)] } } ∧
    freshHM.store 0 (1/2) =
      .ok { freshHM with long_term :=
        { capacity := 1000, memories := [MemoryEntry.init 0 (1/2)] } } := by
  refine ⟨?_, ?_, ?_, ?_, ?_, ?_⟩
  · intro h
    obtain ⟨w, hw2, _, _, _⟩ :=
      add_ok mem.working_memory (MemoryEntry.init c imp) hw
    exact ⟨w, hw2, store_gt mem c imp h w hw2⟩
  · intro h2 h1
    obtain ⟨s, hs2, _, _, _⟩ :=
      add_ok mem.short_term (MemoryEntry.init c imp) hs
    exact ⟨s, hs2, store_mid mem c imp (not_lt.mpr h1) h2 s hs2⟩
  · intro h
    obtain ⟨t, ht2, _, _, _⟩ :=
      add_ok mem.long_term (MemoryEntry.init c imp) hl
    refine ⟨t, ht2, store_low mem c imp ?_ (not_lt.mpr h) t ht2⟩
    exact not_lt.mpr (h.trans (by norm_num))
  · norm_num [HierarchicalMemory.store, freshHM, MemoryLayer.add,
      MemoryEntry.init, Bind.bind, Except.bind, Pure.pure, Except.pure]
  · norm_num [HierarchicalMemory.store, freshHM, MemoryLayer.add,
      MemoryEntry.init, Bind.bind, Except.bind, Pure.pure, Except.pure]
  · norm_num [HierarchicalMemory.store, freshHM, MemoryLayer.add,
      MemoryEntry.init, Bind.bind, Except.bind, Pure.pure, Except.pure]

/-- Witness for C2 at the fresh store with importance 0.81. -/
theorem claim2_threshold_routing_witness :
    ∃ w, freshHM.working_memory.add (MemoryEntry.init 0 (81/100)) = .ok w ∧
      freshHM.store 0 (81/100) = .ok { freshHM with working_memory := w } :=
  (claim2_threshold_routing freshHM 0 (81/100) (by norm_num [freshHM])
    (by norm_num [freshHM]) (by norm_num [freshHM])).1 (by norm_num)

/-- Claim C4: a tie on the lowest score is broken by insertion order. The
stable sort brings the leftmost entry of minimal score to the front, so
eviction removes it; every layer reached from an empty layer by adds of
entries with access count 0 (as all entries built by the code are) keeps
the residents as a suffix of the insertion sequence, in insertion order,
so the leftmost resident is the earliest inserted; and in the concrete
example a layer at capacity holding A then B, both score 0, evicts A and
not B when C is added. -/
theorem claim4_tie_break_earliest (layer : MemoryLayer)
    (l1 l2 : List MemoryEntry) (x : MemoryEntry)
    (hsplit : layer.memories = l1 ++ x :: l2)
    (hmin : ∀ e ∈ layer.memories, score x ≤ score e)
    (hstrict : ∀ e ∈ l1, score x < score e)
    (cap : Int) (hcap : 1 ≤ cap) (entries : List MemoryEntry)
    (hzero : ∀ e ∈ entries, e.access_count = 0) :
    (∃ rest, List.insertionSort scoreLE layer.memories = x :: rest ∧
       layer.evict = .ok ({ layer with memories := rest }, none)) ∧
    (∃ out, MemoryLayer.addSeq { capacity := cap, memories := [] } entries =
        .ok out ∧ out.memories.IsSuffix entries) ∧
    MemoryLayer.add
        { capacity := 2,
          memories := [{ content := 0, importance := 9/10, access_count := 0 },
                       { content := 1, importance := 1/10, access_count := 0 }] }
        { content := 2, importance := 1/2, access_count := 0 } =
      .ok { capacity := 2,
            memories := [{ content := 1, importance := 1/10, access_count := 0 },
                         { content := 2, importance := 1/2, access_count := 0 }] } := by
  refine ⟨?_, ?_, ?_⟩
  · have hfm : firstMin layer.memories = some x := by
      rw [hsplit]
      refine firstMin_append l1 x l2 ?_ hstrict
      intro e he
      refine hmin e ?_
      rw [hsplit]
      exact List.mem_append_right l1 (List.mem_cons_of_mem x he)
    have hne : layer.memories ≠ [] := by
      rw [hsplit]
      simp
    obtain ⟨y, rest, hsrt⟩ :=
      List.exists_cons_of_ne_nil (sort_ne_nil layer.memories hne)
    have hq := sort_headq layer.memories
    rw [hsrt, hfm] at hq
    simp only [List.head?] at hq
    injection hq with hq
    subst hq
    exact ⟨rest, hsrt, evict_eq_of_sort layer y rest hsrt⟩
  · obtain ⟨out, hseq, _, hsuf⟩ :=
      addSeq_suffix entries { capacity := cap, memories := [] } [] hcap
        (fun e he => absurd he (List.not_mem_nil e)) hzero ⟨[], rfl⟩
    refine ⟨out, hseq, ?_⟩
    simpa using hsuf
  · norm_num [MemoryLayer.add, MemoryLayer.evict, listPop0,
      List.insertionSort, List.orderedInsert, scoreLE, score,
      Bind.bind, Except.bind, Pure.pure, Except.pure]

/-- Witness for C4 at the concrete tied two-entry layer of the claim. -/
theorem claim4_tie_break_earliest_witness :
    (∃ rest, List.insertionSort scoreLE
         [{ content := 0, importance := 9/10, access_count := 0 },
          { content := 1, importance := 1/10, access_count := 0 }] =
        { content := 0, importance := 9/10, access_count := 0 } :: rest ∧
       MemoryLayer.evict
         { capacity := 2,
           memories := [{ content := 0, importance := 9/10, access_count := 0 },
                        { content := 1, importance := 1/10, access_count := 0 }] } =
         .ok ({ capacity := 2, memories := rest }, none)) ∧
    (∃ out, MemoryLayer.addSeq { capacity := 1, memories := [] }
          [{ content := 7, importance := 1, access_count := 0 }] = .ok out ∧
       out.memories.IsSuffix
         [{ content := 7, importance := 1, access_count := 0 }]) ∧
    MemoryLayer.add
        { capacity := 2,
          memories := [{ content := 0, importance := 9/10, access_count := 0 },
                       { content := 1, importance := 1/10, access_count := 0 }] }
        { content := 2, importance := 1/2, access_count := 0 } =
      .ok { capacity := 2,
            memories := [{ content := 1, importance := 1/10, access_count := 0 },
                         { content := 2, importance := 1/2, access_count := 0 }] } :=
  claim4_tie_break_earliest
    { capacity := 2,
      memories := [{ content := 0, importance := 9/10, access_count := 0 },
                   { content := 1, importance := 1/10, access_count := 0 }] }
    [] [{ content := 1, importance := 1/10, access_count := 0 }]
    { content := 0, importance := 9/10, access_count := 0 }
    rfl
    (by intro e he; simp at he; rcases he with rfl | rfl <;> norm_num [score])
    (by intro e he; cases he)
    1 (by norm_num)
    [{ content := 7, importance := 1, access_count := 0 }]
    (by intro e he; simp at he; subst he; rfl)

/-- Claim C8: every store call updates exactly one of the three layers: the
other two keep exactly their previous value, the updated layer keeps its
capacity, and every entry resident in the updated layer afterwards was
already resident in that same layer before or is the newly stored entry, so
entries never move between layers. -/
theorem claim8_store_frame (mem : HierarchicalMemory) (c : Content) (imp : ℚ)
    (hw : 1 ≤ mem.working_memory.capacity)
    (hs : 1 ≤ mem.short_term.capacity)
    (hl : 1 ≤ mem.long_term.capacity) :
    ∃ mem2, mem.store c imp = .ok mem2 ∧
      ((8/10 : ℚ) < imp →
        mem2.short_term = mem.short_term ∧ mem2.long_term = mem.long_term ∧
        mem2.working_memory.capacity = mem.working_memory.capacity ∧
        ∀ e ∈ mem2.working_memory.memories,
          e ∈ mem.working_memory.memories ∨ e = MemoryEntry.init c imp) ∧
      ((1/2 : ℚ) < imp → imp ≤ 8/10 →
        mem2.working_memory = mem.working_memory ∧
        mem2.long_term = mem.long_term ∧
        mem2.short_term.capacity = mem.short_term.capacity ∧
        ∀ e ∈ mem2.short_term.memories,
          e ∈ mem.short_term.memories ∨ e = MemoryEntry.init c imp) ∧
      (imp ≤ (1/2 : ℚ) →
        mem2.working_memory = mem.working_memory ∧
        mem2.short_term = mem.short_term ∧
        mem2.long_term.capacity = mem.long_term.capacity ∧
        ∀ e ∈ mem2.long_term.memories,
          e ∈ mem.long_term.memories ∨ e = MemoryEntry.init c imp) := by
  by_cases h1 : (8/10 : ℚ) < imp
  · obtain ⟨w, hw2, hwcap, hwmem, _⟩ :=
      add_ok mem.working_memory (MemoryEntry.init c imp) hw
    refine ⟨{ mem with working_memory := w },
      store_gt mem c imp h1 w hw2, ?_, ?_, ?_⟩
    · intro _
      exact ⟨rfl, rfl, hwcap, hwmem⟩
    · intro _ h8
      exact absurd h1 (not_lt.mpr h8)
    · intro hle
      exact absurd h1 (not_lt.mpr (hle.trans (by norm_num)))
  · by_cases h2 : (1/2 : ℚ) < imp
    · obtain ⟨s, hs2, hscap, hsmem, _⟩ :=
        add_ok mem.short_term (MemoryEntry.init c imp) hs
      refine ⟨{ mem with short_term := s },
        store_mid mem c imp h1 h2 s hs2, ?_, ?_, ?_⟩
      · intro hgt
        exact absurd hgt h1
      · intro _ _
        exact ⟨rfl, rfl, hscap, hsmem⟩
      · intro hle
        exact absurd h2 (not_lt.mpr hle)
    · obtain ⟨t, ht2, htcap, htmem, _⟩ :=
        add_ok mem.long_term (MemoryEntry.init c imp) hl
      refine ⟨{ mem with long_term := t },
        store_low mem c imp h1 h2 t ht2, ?_, ?_, ?_⟩
      · intro hgt
        exact absurd hgt h1
      · intro hgt _
        exact absurd hgt h2
      · intro _
        exact ⟨rfl, rfl, htcap, htmem⟩

/-- Witness for C8 at the fresh store with importance 0.25. -/
theorem claim8_store_frame_witness :
    ∃ mem2, freshHM.store 0 (1/4) = .ok mem2 ∧
      ((8/10 : ℚ) < 1/4 →
        mem2.short_term = freshHM.short_term ∧
        mem2.long_term = freshHM.long_term ∧
        mem2.working_memory.capacity = freshHM.working_memory.capacity ∧
        ∀ e ∈ mem2.working_memory.memories,
          e ∈ freshHM.working_memory.memories ∨ e = MemoryEntry.init 0 (1/4)) ∧
      ((1/2 : ℚ) < 1/4 → (1/4 : ℚ) ≤ 8/10 →
        mem2.working_memory = freshHM.working_memory ∧
        mem2.long_term = freshHM.long_term ∧
        mem2.short_term.capacity = freshHM.short_term.capacity ∧
        ∀ e ∈ mem2.short_term.memories,
          e ∈ freshHM.short_term.memories ∨ e = MemoryEntry.init 0 (1/4)) ∧
      ((1/4 : ℚ) ≤ 1/2 →
        mem2.working_memory = freshHM.working_memory ∧
        mem2.short_term = freshHM.short_term ∧
        mem2.long_term.capacity = freshHM.long_term.capacity ∧
        ∀ e ∈ mem2.long_term.memories,
          e ∈ freshHM.long_term.memories ∨ e = MemoryEntry.init 0 (1/4)) :=
  claim8_store_frame freshHM 0 (1/4) (by norm_num [freshHM])
    (by norm_num [freshHM]) (by norm_num [freshHM])

/-- Claim C9: eviction sorts the resident list in place: the survivors are
the original entries minus the removed minimal one, rearranged in ascending
score order; on the concrete state with distinct scores 3, 1, 2 the
survivors come out in sorted order, which differs from their insertion
order. -/
theorem claim9_evict_sorts_in_place (layer : MemoryLayer) (x : MemoryEntry)
    (rest : List MemoryEntry)
    (h : List.insertionSort scoreLE layer.memories = x :: rest) :
    (layer.evict = .ok ({ layer with memories := rest }, none) ∧
     List.Sorted scoreLE rest ∧
     (x :: rest).Perm layer.memories ∧
     rest.Perm (layer.memories.erase x)) ∧
    (MemoryLayer.evict
        { capacity := 3,
          memories := [{ content := 1, importance := 3, access_count := 1 },
                       { content := 2, importance := 1, access_count := 1 },
                       { content := 3, importance := 2, access_count := 1 }] } =
       .ok ({ capacity := 3,
              memories := [{ content := 3, importance := 2, access_count := 1 },
                           { content := 1, importance := 3, access_count := 1 }] },
            none) ∧
     ([{ content := 3, importance := 2, access_count := 1 },
       { content := 1, importance := 3, access_count := 1 }] :
         List MemoryEntry) ≠
       [{ content := 1, importance := 3, access_count := 1 },
        { content := 3, importance := 2, access_count := 1 }]) := by
  constructor
  · have hp : (x :: rest).Perm layer.memories :=
      h ▸ List.perm_insertionSort scoreLE layer.memories
    have hsorted := List.sorted_insertionSort scoreLE layer.memories
    rw [h] at hsorted
    refine ⟨evict_eq_of_sort layer x rest h,
      (List.sorted_cons.mp hsorted).2, hp,
      (List.cons_perm_iff_perm_erase.mp hp).2⟩
  · constructor
    · norm_num [MemoryLayer.evict, listPop0, List.insertionSort,
        List.orderedInsert, scoreLE, score, Bind.bind, Except.bind,
        Pure.pure, Except.pure]
    · simp

/-- Witness for C9 at the concrete three-entry layer of the claim. -/
theorem claim9_evict_sorts_in_place_witness :
    (MemoryLayer.evict
        { capacity := 3,
          memories := [{ content := 1, importance := 3, access_count := 1 },
                       { content := 2, importance := 1, access_count := 1 },
                       { content := 3, importance := 2, access_count := 1 }] } =
      .ok ({ capacity := 3,
             memories := [{ content := 3, importance := 2, access_count := 1 },
                          { content := 1, importance := 3, access_count := 1 }] },
           none) ∧
     List.Sorted scoreLE
       [{ content := 3, importance := 2, access_count := 1 },
        { content := 1, importance := 3, access_count := 1 }] ∧
     ([{ content := 2, importance := 1, access_count := 1 },
       { content := 3, importance := 2, access_count := 1 },
       { content := 1, importance := 3, access_count := 1 }] :
         List MemoryEntry).Perm
       [{ content := 1, importance := 3, access_count := 1 },
        { content := 2, importance := 1, access_count := 1 },
        { content := 3, importance := 2, access_count := 1 }] ∧
     ([{ content := 3, importance := 2, access_count := 1 },
       { content := 1, importance := 3, access_count := 1 }] :
         List MemoryEntry).Perm
       (([{ content := 1, importance := 3, access_count := 1 },
          { content := 2, importance := 1, access_count := 1 },
          { content := 3, importance := 2, access_count := 1 }] :
            List MemoryEntry).erase
         { content := 2, importance := 1, access_count := 1 })) :=
  (claim9_evict_sorts_in_place
    { capacity := 3,
      memories := [{ content := 1, importance := 3, access_count := 1 },
                   { content := 2, importance := 1, access_count := 1 },
                   { content := 3, importance := 2, access_count := 1 }] }
    { content := 2, importance := 1, access_count := 1 }
    [{ content := 3, importance := 2, access_count := 1 },
     { content := 1, importance := 3, access_count := 1 }]
    (by norm_num [List.insertionSort, List.orderedInsert, scoreLE, score])).1

/-- Claim C10: no operation of the code ever changes an access count after
construction sets it to 0: every state reached from the fresh store by any
sequence of store calls has only access count 0 entries in all three
layers; and on any layer whose residents all have access count 0 every
score is 0 and eviction removes exactly the front entry of the current
list. -/
theorem claim10_access_count_zero (ops : List (Content × ℚ))
    (layer : MemoryLayer)
    (hz : ∀ e ∈ layer.memories, e.access_count = 0)
    (hne : layer.memories ≠ []) :
    (∃ mem, HierarchicalMemory.init = .ok freshHM ∧
       HierarchicalMemory.storeSeq freshHM ops = .ok mem ∧
       (∀ e ∈ mem.working_memory.memories, e.access_count = 0) ∧
       (∀ e ∈ mem.short_term.memories, e.access_count = 0) ∧
       (∀ e ∈ mem.long_term.memories, e.access_count = 0)) ∧
    ((∀ e ∈ layer.memories, score e = 0) ∧
     layer.evict = .ok ({ layer with memories := layer.memories.tail }, none)) := by
  constructor
  · obtain ⟨out, hseq, o1, o2, o3⟩ :=
      storeSeq_zero ops freshHM (by norm_num [freshHM]) (by norm_num [freshHM])
        (by norm_num [freshHM]) (by simp [freshHM]) (by simp [freshHM])
        (by simp [freshHM])
    exact ⟨out, rfl, hseq, o1, o2, o3⟩
  · refine ⟨fun e he => score_zero e (hz e he), ?_⟩
    obtain ⟨m, t, hm⟩ := List.exists_cons_of_ne_nil hne
    have hsort : List.insertionSort scoreLE layer.memories = m :: t := by
      rw [sort_eq_self_zero layer.memories hz, hm]
    have := evict_eq_of_sort layer m t hsort
    rw [hm]
    simpa [hm] using this

/-- Witness for C10 with two stores and a concrete zero-access layer. -/
theorem claim10_access_count_zero_witness :
    (∃ mem, HierarchicalMemory.init = .ok freshHM ∧
       HierarchicalMemory.storeSeq freshHM [(0, 9/10), (1, 1/3)] = .ok mem ∧
       (∀ e ∈ mem.working_memory.memories, e.access_count = 0) ∧
       (∀ e ∈ mem.short_term.memories, e.access_count = 0) ∧
       (∀ e ∈ mem.long_term.memories, e.access_count = 0)) ∧
    ((∀ e ∈ ({ capacity := 1,
               memories := [{ content := 5, importance := 2, access_count := 0 }] } :
                 MemoryLayer).memories, score e = 0) ∧
     MemoryLayer.evict
       { capacity := 1,
         memories := [{ content := 5, importance := 2, access_count := 0 }] } =
       .ok ({ capacity := 1,
              memories := ([{ content := 5, importance := 2, access_count := 0 }] :
                List MemoryEntry).tail }, none)) :=
  claim10_access_count_zero [(0, 9/10), (1, 1/3)]
    { capacity := 1,
      memories := [{ content := 5, importance := 2, access_count := 0 }] }
    (by intro e he; simp at he; subst he; rfl)
    (by simp)

/-- Claim C5 counterexample: storing importance NaN into the fresh store
raises nothing: the source performs no finiteness validation, both
threshold comparisons on NaN are false, so the entry is appended to the
long-term layer, whose size changes from 0 to 1. -/
theorem claim5_counterexample :
    HierarchicalMemoryF.store freshHMF 0 .nan =
      .ok { freshHMF with long_term :=
        { capacity := 1000,
          memories := [{ content := 0, importance := .nan, access_count := 0 }] } } ∧
    HierarchicalMemoryF.store freshHMF 0 .nan ≠ .error .invalidInputError ∧
    ({ capacity := 1000,
       memories := [{ content := 0, importance := PyFloat.nan, access_count := 0 }] } :
         MemoryLayerF).memories.length ≠ freshHMF.long_term.memories.length := by
  refine ⟨rfl, ?_, by simp [freshHMF]⟩
  intro h
  cases h

/-- Claim C5 amended: store never raises on a non-finite importance: the
code runs the same threshold comparisons, every comparison involving NaN is
false, so NaN and negative infinity are appended to the long-term layer and
positive infinity to working memory; on a below-capacity target layer the
entry list grows by the new entry and the other layers are unchanged. -/
theorem claim5_amended (mem : HierarchicalMemoryF) (c : Content)
    (hw : (mem.working_memory.memories.length : Int) < mem.working_memory.capacity)
    (hl : (mem.long_term.memories.length : Int) < mem.long_term.capacity) :
    (mem.store c .nan = .ok { mem with long_term :=
       { mem.long_term with memories := mem.long_term.memories ++
           [{ content := c, importance := .nan, access_count := 0 }] } }) ∧
    (mem.store c .negInf = .ok { mem with long_term :=
       { mem.long_term with memories := mem.long_term.memories ++
           [{ content := c, importance := .negInf, access_count := 0 }] } }) ∧
    (mem.store c .posInf = .ok { mem with working_memory :=
       { mem.working_memory with memories := mem.working_memory.memories ++
           [{ content := c, importance := .posInf, access_count := 0 }] } }) := by
  refine ⟨?_, ?_, ?_⟩ <;>
    simp only [HierarchicalMemoryF.store, PyFloat.gt, MemoryLayerF.add,
      if_neg (not_le.mpr hw), if_neg (not_le.mpr hl), Bind.bind, Except.bind,
      Pure.pure, Except.pure, Bool.false_eq_true, if_false, if_true]

/-- Witness for the amended C5 at the fresh store. -/
theorem claim5_amended_witness :
    (freshHMF.store 0 .nan = .ok { freshHMF with long_term :=
       { freshHMF.long_term with memories := freshHMF.long_term.memories ++
           [{ content := 0, importance := .nan, access_count := 0 }] } }) ∧
    (freshHMF.store 0 .negInf = .ok { freshHMF with long_term :=
       { freshHMF.long_term with memories := freshHMF.long_term.memories ++
           [{ content := 0, importance := .negInf, access_count := 0 }] } }) ∧
    (freshHMF.store 0 .posInf = .ok { freshHMF with working_memory :=
       { freshHMF.working_memory with memories := freshHMF.working_memory.memories ++
           [{ content := 0, importance := .posInf, access_count := 0 }] } }) :=
  claim5_amended freshHMF 0 (by norm_num [freshHMF]) (by norm_num [freshHMF])
